import Mathlib

/-!
# Verification of the e2c fleet-state synchronization core

A shallow embedding of the Go sources of `nlamirault/e2c` (the EC2 console):

* string helpers `toLower`, `indexString`, `containsRune`, `containsIgnoreCase`
  from `internal/ui` (manual case-insensitive substring scan);
* the instance data model from `internal/model/instance.go`;
* the filter pipeline `matchesFilter` / `applyFilter` / `SetFilter`
  from `internal/ui`;
* the sort comparator of `EC2Client.ListInstances` from `internal/aws`;
* the protection rendering helpers and `InstancesView.UpdateProtection`
  from `internal/ui`;
* a small-step trace model of the refresh goroutines spawned by
  `UI.RefreshInstances`, and of the semaphore-bounded enrichment worker
  pool of `EC2Client.FetchProtectionStatuses`.

Go strings are modelled as lists of characters (`Str`); Go byte-wise
lexicographic comparison coincides with code-point comparison on valid
UTF-8, which code-point lists model faithfully.
-/

namespace E2C

/-- Go strings, modelled as lists of unicode code points. -/
abbrev Str := List Char

/-- Go `<` on strings: lexicographic order (byte order on valid UTF-8
equals code-point order). -/
def goStrLt : Str → Str → Bool
  | [], [] => false
  | [], _ :: _ => true
  | _ :: _, [] => false
  | a :: as, b :: bs =>
    if a < b then true
    else if b < a then false
    else goStrLt as bs

/-- Model of `toLower` from `internal/ui` (status_bar.go): manual ASCII lowercasing,
character by character; non-ASCII characters pass through unchanged. -/
def toLower (s : Str) : Str :=
  s.map (fun r => if 'A' ≤ r ∧ r ≤ 'Z' then Char.ofNat (r.toNat + 32) else r)

/-- Model of `indexString` from `internal/ui` (status_bar.go): first index `i` with
`s[i:i+len(substr)] == substr`, scanning `i = 0 .. len(s)-len(substr)`;
`-1` when there is none or when `substr` is longer than `s`. -/
def indexString (s substr : Str) : Int :=
  if substr.length > s.length then -1
  else
    match (List.range (s.length - substr.length + 1)).find?
        (fun i => (s.drop i).take substr.length = substr) with
    | some i => (i : Int)
    | none => -1

/-- Model of `containsRune` from `internal/ui` (status_bar.go): length guard, then
case-insensitive substring via `toLower` and `indexString`. -/
def containsRune (s substr : Str) : Bool :=
  if substr.length > s.length then false
  else indexString (toLower s) (toLower substr) ≥ 0

/-- Model of `containsIgnoreCase` from `internal/ui` (status_bar.go). The source
wraps both arguments in `fmt.Sprintf("%s", ·)`, which is the identity on
strings, and re-checks `s` for emptiness. -/
def containsIgnoreCase (s substr : Str) : Bool :=
  if s = [] ∨ substr = [] then false
  else decide (s ≠ []) && containsRune s substr

/-- Model of `model.Instance` from `internal/model/instance.go`. `LaunchTime` is
omitted (only its derived `Age` is rendered); `Age` is a `time.Duration`
in nanoseconds, modelled as a natural number. -/
structure Instance where
  id : Str
  name : Str
  ty : Str
  state : Str
  region : Str
  age : Nat
  privateIP : Str
  publicIP : Str
  platform : Str
  architecture : Str
  tags : List (Str × Str)
  terminationProtection : Bool
  stopProtection : Bool
  terminationProtectionKnown : Bool
  stopProtectionKnown : Bool
deriving DecidableEq, Repr

/-- Model of `model.ProtectionStatus` from `internal/model/instance.go`. -/
structure ProtectionStatus where
  instanceID : Str
  terminationProtection : Bool
  stopProtection : Bool
deriving DecidableEq, Repr

/-- Model of `Instance.DisplayName` from `internal/model/instance.go`. -/
def Instance.displayName (i : Instance) : Str :=
  if i.name ≠ [] then i.name else i.id

/-- Model of `UI.matchesFilter` from `internal/ui` (status_bar.go): empty filter
matches everything, otherwise a disjunction of `containsIgnoreCase` over
ID, name, type, state, private IP and public IP. -/
def matchesFilter (filter : Str) (inst : Instance) : Bool :=
  if filter = [] then true
  else
    containsIgnoreCase inst.id filter ||
    containsIgnoreCase inst.name filter ||
    containsIgnoreCase inst.ty filter ||
    containsIgnoreCase inst.state filter ||
    containsIgnoreCase inst.privateIP filter ||
    containsIgnoreCase inst.publicIP filter

/-- Model of `UI.applyFilter` from `internal/ui` (status_bar.go): returns the input
unchanged on an empty filter, otherwise keeps exactly the instances that
pass `matchesFilter`, in input order. -/
def applyFilter (filter : Str) (instances : List Instance) : List Instance :=
  if filter = [] then instances
  else instances.filter (fun inst => matchesFilter filter inst)

/-- Spec-side predicate for claim C3 (from the spec's words): the filter
text is a case-insensitive substring of the field, rendered as "lowercase
both, then substring"; lowercasing is the program's character model
(ASCII). -/
def caseInsensitiveSubstr (needle hay : Str) : Prop :=
  toLower needle <:+: toLower hay

/-- Spec-side per-instance filter predicate for claim C3: the filter is a
case-insensitive substring of at least one of the six matched fields. -/
def specMatches (filter : Str) (i : Instance) : Prop :=
  caseInsensitiveSubstr filter i.id ∨ caseInsensitiveSubstr filter i.name ∨
  caseInsensitiveSubstr filter i.ty ∨ caseInsensitiveSubstr filter i.state ∨
  caseInsensitiveSubstr filter i.privateIP ∨ caseInsensitiveSubstr filter i.publicIP

instance (filter : Str) (i : Instance) : Decidable (specMatches filter i) := by
  unfold specMatches caseInsensitiveSubstr
  infer_instance

theorem toLower_length (s : Str) : (toLower s).length = s.length := by
  simp [toLower]

instance (needle hay : Str) : Decidable (caseInsensitiveSubstr needle hay) := by
  unfold caseInsensitiveSubstr
  infer_instance

/-- A list is a contiguous substring of another exactly when it appears as a
`take` of some `drop`, within bounds. This is the bridge between the spec's
substring notion and the index scan of `indexString`. -/
theorem substr_iff_drop_take (sub hay : Str) :
    sub <:+: hay ↔ ∃ i, (hay.drop i).take sub.length = sub ∧ i + sub.length ≤ hay.length := by
  constructor
  · rintro ⟨p, t, rfl⟩
    refine ⟨p.length, ?_, ?_⟩
    · rw [List.append_assoc, List.drop_left, List.take_left]
    · simp
  · rintro ⟨i, htake, _⟩
    refine ⟨hay.take i, (hay.drop i).drop sub.length, ?_⟩
    have hsplit : List.take sub.length (hay.drop i) ++ List.drop sub.length (hay.drop i)
        = hay.drop i := List.take_append_drop _ _
    rw [htake] at hsplit
    rw [List.append_assoc, hsplit, List.take_append_drop]

theorem containsRune_eq_substr (s f : Str) :
    containsRune s f = decide (toLower f <:+: toLower s) := by
  unfold containsRune
  by_cases hlen : f.length > s.length
  · rw [if_pos hlen]
    have : ¬ (toLower f <:+: toLower s) := by
      intro h
      have := h.length_le
      rw [toLower_length, toLower_length] at this
      omega
    simp [this]
  · rw [if_neg hlen]
    unfold indexString
    have hcond : ¬ ((toLower f).length > (toLower s).length) := by
      rw [toLower_length, toLower_length]
      exact hlen
    rw [if_neg hcond]
    push_neg at hlen
    rcases hfind : (List.range ((toLower s).length - (toLower f).length + 1)).find?
        (fun i => decide (((toLower s).drop i).take (toLower f).length = toLower f)) with _ | i
    · have hnone : ∀ i ∈ List.range ((toLower s).length - (toLower f).length + 1),
          ¬ (((toLower s).drop i).take (toLower f).length = toLower f) := by
        intro i hi
        have := List.find?_eq_none.mp hfind i hi
        simpa using this
      have hno : ¬ (toLower f <:+: toLower s) := by
        rw [substr_iff_drop_take]
        rintro ⟨i, htake, hbound⟩
        refine hnone i ?_ htake
        rw [List.mem_range]
        omega
      simp only [hno, decide_eq_false_iff_not, ge_iff_le]
      simp
    · have hp := List.find?_some hfind
      have hmem : i ∈ List.range ((toLower s).length - (toLower f).length + 1) :=
        List.mem_of_find?_eq_some hfind
      have hsub : toLower f <:+: toLower s := by
        rw [substr_iff_drop_take]
        refine ⟨i, by simpa using hp, ?_⟩
        rw [List.mem_range] at hmem
        rw [toLower_length, toLower_length]
        rw [toLower_length, toLower_length] at hmem
        omega
      simp only [hsub, decide_eq_true_eq, ge_iff_le]
      simp [Int.natCast_nonneg]

theorem containsIgnoreCase_eq_substr (s f : Str) (hf : f ≠ []) :
    containsIgnoreCase s f = decide (caseInsensitiveSubstr f s) := by
  unfold containsIgnoreCase caseInsensitiveSubstr
  by_cases hs : s = []
  · subst hs
    have hno : ¬ (toLower f <:+: toLower ([] : Str)) := by
      intro h
      have := h.length_le
      rw [toLower_length, toLower_length] at this
      simp at this
      exact hf this
    rw [if_pos (Or.inl rfl)]
    simp [hno]
  · have hcond : ¬ (s = [] ∨ f = []) := by simp [hs, hf]
    rw [if_neg hcond]
    rw [containsRune_eq_substr]
    simp [hs]

theorem matchesFilter_eq_specMatches (f : Str) (i : Instance) (hf : f ≠ []) :
    matchesFilter f i = decide (specMatches f i) := by
  unfold matchesFilter specMatches
  rw [if_neg hf]
  rw [containsIgnoreCase_eq_substr _ _ hf, containsIgnoreCase_eq_substr _ _ hf,
    containsIgnoreCase_eq_substr _ _ hf, containsIgnoreCase_eq_substr _ _ hf,
    containsIgnoreCase_eq_substr _ _ hf, containsIgnoreCase_eq_substr _ _ hf]
  simp [Bool.or_assoc]

/-- C3: for every resource list `R` and filter text `F`, the filtering
operation keeps an instance if and only if `F` is a case-insensitive
substring of at least one of its ID, name, type, state, private IP, or
public IP fields; the empty filter keeps every instance unchanged; and
the filtered output is a subsequence of the input list `R`. -/
theorem applyFilter_correct (F : Str) (R : List Instance) :
    applyFilter F R = R.filter (fun i => decide (specMatches F i))
    ∧ applyFilter [] R = R
    ∧ (applyFilter F R).Sublist R := by
  have hempty : applyFilter [] R = R := by simp [applyFilter]
  have hmain : applyFilter F R = R.filter (fun i => decide (specMatches F i)) := by
    by_cases hF : F = []
    · subst hF
      rw [hempty]
      have hall : ∀ i ∈ R, decide (specMatches [] i) = true := by
        intro i _
        have : specMatches [] i := by
          left
          exact ⟨[], toLower i.id, by simp [toLower]⟩
        simp [this]
      exact (List.filter_eq_self.mpr hall).symm
    · unfold applyFilter
      rw [if_neg hF]
      exact List.filter_congr (fun i _ => matchesFilter_eq_specMatches F i hF)
  refine ⟨hmain, hempty, ?_⟩
  rw [hmain]
  exact List.filter_sublist R

/-- The comparator passed to `sort.Slice` in `EC2Client.ListInstances`
(`internal/aws/ec2.go`): "sort instances by name or instance ID if name
not available". -/
def instLess (a b : Instance) : Bool :=
  if a.name = [] ∧ b.name = [] then goStrLt a.id b.id
  else if a.name = [] then false
  else if b.name = [] then true
  else goStrLt a.name b.name

/-- Postcondition of `sort.Slice(instances, less)` in
`EC2Client.ListInstances`: the output is a permutation of the input that is
non-decreasing with respect to the comparator. `sort.Slice` is documented
as not stable, so the output is specified only up to this relation: any
list satisfying it is a possible result. -/
def listInstancesSorted (input output : List Instance) : Prop :=
  output.Perm input ∧ output.Pairwise (fun a b => instLess b a = false)

theorem goStrLt_irrefl : ∀ a : Str, goStrLt a a = false
  | [] => rfl
  | c :: cs => by
    unfold goStrLt
    simp [goStrLt_irrefl cs]

theorem goStrLt_asymm_eq : ∀ a b : Str, goStrLt a b = false → goStrLt b a = false → a = b
  | [], [], _, _ => rfl
  | [], _ :: _, h, _ => by simp [goStrLt] at h
  | _ :: _, [], _, h => by simp [goStrLt] at h
  | a :: as, b :: bs, h1, h2 => by
    unfold goStrLt at h1 h2
    by_cases hab : a < b
    · simp [hab] at h1
    · by_cases hba : b < a
      · simp [hba] at h2
      · have hEq : a = b := le_antisymm (not_lt.mp hba) (not_lt.mp hab)
        subst hEq
        simp [hab] at h1 h2
        rw [goStrLt_asymm_eq as bs h1 h2]

/-- Pairs that the `ListInstances` comparator cannot order: both names
empty with equal IDs, or equal non-empty names (in the latter case the
IDs play no role). -/
theorem instLess_tie_iff (a b : Instance) :
    (instLess a b = false ∧ instLess b a = false) ↔
      ((a.name = [] ∧ b.name = [] ∧ a.id = b.id) ∨
       (a.name ≠ [] ∧ b.name ≠ [] ∧ a.name = b.name)) := by
  unfold instLess
  by_cases ha : a.name = []
  · by_cases hb : b.name = []
    · simp only [ha, hb, and_self, if_true, true_and, ne_eq, not_true_eq_false, false_and, or_false]
      constructor
      · rintro ⟨h1, h2⟩
        exact goStrLt_asymm_eq _ _ h1 h2
      · intro h
        rw [h]
        simp [goStrLt_irrefl]
    · have hcond : ¬ (a.name = [] ∧ b.name = []) := by simp [hb]
      have hcond2 : ¬ (b.name = [] ∧ a.name = []) := by simp [hb]
      simp [hcond, hcond2, ha, hb]
  · by_cases hb : b.name = []
    · have hcond : ¬ (a.name = [] ∧ b.name = []) := by simp [ha]
      have hcond2 : ¬ (b.name = [] ∧ a.name = []) := by simp [ha]
      simp [hcond, hcond2, ha, hb]
    · have hcond : ¬ (a.name = [] ∧ b.name = []) := by simp [ha]
      have hcond2 : ¬ (b.name = [] ∧ a.name = []) := by simp [hb]
      simp only [hcond, if_false, ha, hb, hcond2, ne_eq, not_false_eq_true, true_and, false_and,
        false_or]
      constructor
      · rintro ⟨h1, h2⟩
        exact goStrLt_asymm_eq _ _ h1 h2
      · intro h
        rw [h]
        simp [goStrLt_irrefl]

/-- Uniqueness of a sorted permutation: two permutations of each other that
are both pairwise-sorted under a relation that is antisymmetric on the
elements involved must be equal. -/
theorem pairwise_perm_eq {α : Type _} {R : α → α → Prop} :
    ∀ {l₁ l₂ : List α}, l₁.Perm l₂ → l₁.Pairwise R → l₂.Pairwise R →
      (∀ a ∈ l₁, ∀ b ∈ l₁, R a b → R b a → a = b) → l₁ = l₂
  | [], l₂, hperm, _, _, _ => (hperm.nil_eq).symm ▸ rfl
  | a :: t₁, [], hperm, _, _, _ => by
    exact absurd hperm.symm.nil_eq (by simp)
  | a :: t₁, b :: t₂, hperm, hp₁, hp₂, hanti => by
    have hab : a = b := by
      by_contra hne
      have hbmem : b ∈ a :: t₁ := hperm.symm.subset (List.mem_cons_self b t₂)
      have hbt₁ : b ∈ t₁ := by
        rcases List.mem_cons.mp hbmem with h | h
        · exact absurd h.symm hne
        · exact h
      have hamem : a ∈ b :: t₂ := hperm.subset (List.mem_cons_self a t₁)
      have hat₂ : a ∈ t₂ := by
        rcases List.mem_cons.mp hamem with h | h
        · exact absurd h hne
        · exact h
      have hRab : R a b := (List.pairwise_cons.mp hp₁).1 b hbt₁
      have hRba : R b a := (List.pairwise_cons.mp hp₂).1 a hat₂
      exact hne (hanti a (List.mem_cons_self a t₁) b hbmem hRab hRba)
    subst hab
    have htail : t₁.Perm t₂ := hperm.cons_inv
    have := pairwise_perm_eq htail (List.pairwise_cons.mp hp₁).2 (List.pairwise_cons.mp hp₂).2
      (fun x hx y hy => hanti x (List.mem_cons_of_mem a hx) y (List.mem_cons_of_mem a hy))
    rw [this]

/-- The input of the C4 counterexample: two instances with the same
non-empty name `web` and distinct IDs. -/
def c4i1 : Instance :=
  { id := "i-1".toList, name := "web".toList, ty := [], state := [], region := [], age := 0,
    privateIP := [], publicIP := [], platform := [], architecture := [], tags := [],
    terminationProtection := false, stopProtection := false,
    terminationProtectionKnown := false, stopProtectionKnown := false }

def c4i2 : Instance :=
  { id := "i-2".toList, name := "web".toList, ty := [], state := [], region := [], age := 0,
    privateIP := [], publicIP := [], platform := [], architecture := [], tags := [],
    terminationProtection := false, stopProtection := false,
    terminationProtectionKnown := false, stopProtectionKnown := false }

/-- C4 counterexample: for the input `[c4i1, c4i2]` (same non-empty name
`web`, IDs `i-1` and `i-2`), the comparator of `ListInstances` orders the
pair in neither direction — ties between non-empty equal names are NOT
broken by ID — and both `[c4i1, c4i2]` and `[c4i2, c4i1]` are valid
outputs of the (unstable) sort, so the resulting order is not
deterministic. -/
theorem listInstances_sort_not_deterministic :
    instLess c4i1 c4i2 = false ∧ instLess c4i2 c4i1 = false ∧ c4i1.id ≠ c4i2.id ∧
    listInstancesSorted [c4i1, c4i2] [c4i1, c4i2] ∧
    listInstancesSorted [c4i1, c4i2] [c4i2, c4i1] ∧
    ([c4i1, c4i2] : List Instance) ≠ [c4i2, c4i1] := by
  refine ⟨by decide, by decide, by decide, ⟨?_, ?_⟩, ⟨?_, ?_⟩, by decide⟩
  · exact List.Perm.refl _
  · decide
  · exact List.Perm.swap c4i1 c4i2 []
  · decide

/-- C4 amended: `ListInstances` returns the instances sorted with
instances having an empty name placed after all instances with non-empty
names; among empty-named instances the order is ascending by ID; among
non-empty-named instances it is ascending by name, but ties between equal
non-empty names are NOT broken by ID (the comparator returns false both
ways and the sort is unstable). The order is deterministic only when no
two distinct instances of the input tie under the comparator. -/
theorem listInstances_sort_correct (input out : List Instance)
    (hsort : listInstancesSorted input out)
    (hnotie : ∀ a ∈ input, ∀ b ∈ input, a ≠ b →
      instLess a b = true ∨ instLess b a = true) :
    (∀ a b : Instance, a.name ≠ [] → b.name = [] → instLess a b = true)
    ∧ (∀ a b : Instance, a.name = [] → b.name ≠ [] → instLess a b = false)
    ∧ (∀ a b : Instance, a.name = [] → b.name = [] → instLess a b = goStrLt a.id b.id)
    ∧ (∀ a b : Instance, a.name ≠ [] → b.name ≠ [] → instLess a b = goStrLt a.name b.name)
    ∧ (∀ out₂, listInstancesSorted input out₂ → out = out₂) := by
  refine ⟨?_, ?_, ?_, ?_, ?_⟩
  · intro a b ha hb
    unfold instLess
    have hcond : ¬ (a.name = [] ∧ b.name = []) := by simp [ha]
    simp [hcond, ha, hb]
  · intro a b ha hb
    unfold instLess
    have hcond : ¬ (a.name = [] ∧ b.name = []) := by simp [hb]
    simp [hcond, ha, hb]
  · intro a b ha hb
    unfold instLess
    simp [ha, hb]
  · intro a b ha hb
    unfold instLess
    have hcond : ¬ (a.name = [] ∧ b.name = []) := by simp [ha]
    simp [hcond, ha, hb]
  · intro out₂ hsort₂
    refine pairwise_perm_eq (hsort.1.trans hsort₂.1.symm) hsort.2 hsort₂.2 ?_
    intro a ha b hb h1 h2
    by_contra hne
    have hamem : a ∈ input := hsort.1.subset ha
    have hbmem : b ∈ input := hsort.1.subset hb
    rcases hnotie a hamem b hbmem hne with h | h
    · rw [h2] at h
      exact Bool.false_ne_true h
    · rw [h1] at h
      exact Bool.false_ne_true h

/-- Witness for `listInstances_sort_correct` at a concrete input. -/
theorem listInstances_sort_correct_witness :
    listInstancesSorted [c4i1] [c4i1] ∧
    ((∀ a b : Instance, a.name ≠ [] → b.name = [] → instLess a b = true)
    ∧ (∀ a b : Instance, a.name = [] → b.name ≠ [] → instLess a b = false)
    ∧ (∀ a b : Instance, a.name = [] → b.name = [] → instLess a b = goStrLt a.id b.id)
    ∧ (∀ a b : Instance, a.name ≠ [] → b.name ≠ [] → instLess a b = goStrLt a.name b.name)
    ∧ (∀ out₂, listInstancesSorted [c4i1] out₂ → [c4i1] = out₂)) :=
  ⟨⟨List.Perm.refl _, by decide⟩,
    listInstances_sort_correct [c4i1] [c4i1] ⟨List.Perm.refl _, by decide⟩ (by
      intro a ha b hb hne
      simp at ha hb
      subst ha
      subst hb
      exact absurd rfl hne)⟩

/-- Model of `formatProtectionStatus` from `internal/ui` (instances_view):
detail-pane text for a protection flag together with its known flag. -/
def formatProtectionStatus (enabled known : Bool) : Str :=
  if !known then "Unknown".toList
  else if enabled then "Enabled".toList
  else "Disabled".toList

/-- Model of `formatProtectionCell` from `internal/ui` (instances_view):
table-cell text for a protection flag together with its known flag. -/
def formatProtectionCell (enabled known : Bool) : Str :=
  if !known then "Unknown".toList
  else if enabled then "On".toList
  else "Off".toList

/-- C8: the protection-rendering functions return "Unknown" whenever
`known` is false regardless of `enabled`; "Off"/"Disabled" are returned
exactly when `known` is true and `enabled` is false, "On"/"Enabled"
exactly when both are true. -/
theorem protection_render_tri_state :
    (∀ e : Bool, formatProtectionCell e false = "Unknown".toList
      ∧ formatProtectionStatus e false = "Unknown".toList)
    ∧ (∀ e k : Bool, (formatProtectionCell e k = "Off".toList ↔ k = true ∧ e = false)
      ∧ (formatProtectionStatus e k = "Disabled".toList ↔ k = true ∧ e = false)
      ∧ (formatProtectionCell e k = "On".toList ↔ k = true ∧ e = true)
      ∧ (formatProtectionStatus e k = "Enabled".toList ↔ k = true ∧ e = true)) := by
  constructor
  · intro e
    cases e <;> exact ⟨rfl, rfl⟩
  · intro e k
    cases e <;> cases k <;> refine ⟨⟨?_, ?_⟩, ⟨?_, ?_⟩, ⟨?_, ?_⟩, ⟨?_, ?_⟩⟩ <;> decide

/-- Model of `getStateEmoji` from `internal/ui` (instances_view). -/
def getStateEmoji (state : Str) : Str :=
  if state = "running".toList then "🟢".toList
  else if state = "stopped".toList then "🔴".toList
  else if state = "stopping".toList then "🟠".toList
  else if state = "pending".toList then "🟡".toList
  else if state = "shutting-down".toList then "💤".toList
  else if state = "terminated".toList then "⛔".toList
  else if state = "rebooting".toList then "🔄".toList
  else "❓".toList

def nsPerSec : Nat := 1000000000

def nsPerMin : Nat := 60 * nsPerSec

def nsPerHour : Nat := 60 * nsPerMin

def natToStr (n : Nat) : Str := (toString n).toList

/-- Model of `formatDuration` from `internal/ui` (instances_view), on a
`time.Duration` in nanoseconds. The source truncates float64 quotients
with `int(...)`; for the non-negative durations involved this is integer
division, which is how it is modelled here. -/
def formatDuration (d : Nat) : Str :=
  if d < nsPerMin then natToStr (d / nsPerSec) ++ "s".toList
  else if d < nsPerHour then natToStr (d / nsPerMin) ++ "m".toList
  else if d < 24 * nsPerHour then
    natToStr (d / nsPerHour) ++ "h ".toList ++ natToStr ((d / nsPerMin) % 60) ++ "m".toList
  else if d < 30 * (24 * nsPerHour) then
    natToStr (d / (24 * nsPerHour)) ++ "d ".toList ++ natToStr ((d / nsPerHour) % 24) ++ "h".toList
  else if d < 365 * (24 * nsPerHour) then
    natToStr (d / (24 * nsPerHour) / 30) ++ "M ".toList
      ++ natToStr ((d / (24 * nsPerHour)) % 30) ++ "d".toList
  else
    natToStr (d / (24 * nsPerHour) / 365) ++ "y ".toList
      ++ natToStr ((d / (24 * nsPerHour) / 30) % 12) ++ "M".toList

/-- Table cells are padded with one space on each side throughout
`InstancesView`. -/
def spaced (s : Str) : Str := " ".toList ++ s ++ " ".toList

/-- The header texts set up in `NewInstancesView`; the two protection
columns exist only in expert mode (`showProtections`). -/
def headerRow (showProt : Bool) : List Str :=
  (["ID", "Name", "State", "Type", "Region", "Private IP", "Public IP", "Age"].map
    (fun h => spaced h.toList))
  ++ (if showProt then ["T.Protect", "S.Protect"].map (fun h => spaced h.toList) else [])

/-- One table row as written by `InstancesView.UpdateInstances`
(`internal/ui`, instances_view): cell texts of columns 0-7, plus the two
protection columns in expert mode. Colors and alignment are toolkit
configuration and are not modelled. -/
def renderRow (showProt : Bool) (i : Instance) : List Str :=
  [spaced i.id, spaced i.name,
   " ".toList ++ getStateEmoji i.state ++ " ".toList ++ i.state ++ " ".toList,
   spaced i.ty, spaced i.region, spaced i.privateIP, spaced i.publicIP,
   spaced (formatDuration i.age)]
  ++ (if showProt then
        [spaced (formatProtectionCell i.terminationProtection i.terminationProtectionKnown),
         spaced (formatProtectionCell i.stopProtection i.stopProtectionKnown)]
      else [])

/-- The table as rebuilt by `InstancesView.UpdateInstances`: header row 0
followed by one row per instance. -/
def renderTable (showProt : Bool) (instances : List Instance) : List (List Str) :=
  headerRow showProt :: instances.map (renderRow showProt)

/-- Model of `tview.Table.SetCell(r, c, v)` on an in-range position; the toolkit
would grow the table on an out-of-range write, but every write performed
by the embedded code is in range, so an out-of-range write is left as the
identity. -/
def setCell (t : List (List Str)) (r c : Nat) (v : Str) : List (List Str) :=
  match t.get? r with
  | some row => t.set r (row.set c v)
  | none => t

/-- The state of `InstancesView` relevant to the patching claims:
the instance slice, the rendered table, the selection index and the
expert-mode flag. -/
structure ViewState where
  instances : List Instance
  table : List (List Str)
  selected : Nat
  showProtections : Bool
deriving Repr

/-- The patched instance written by `InstancesView.UpdateProtection` when
the ID matches: both protection fields and both known flags are set. -/
def patchInstance (inst : Instance) (term stop : Bool) : Instance :=
  { inst with
    terminationProtection := term
    stopProtection := stop
    terminationProtectionKnown := true
    stopProtectionKnown := true }

/-- The scan-and-patch loop of `InstancesView.UpdateProtection`
(`internal/ui`, instances_view): patch the first instance whose ID
matches, leave the rest, and report its index (the loop breaks on the
first match). -/
def updateProtectionList (instanceID : Str) (term stop : Bool) :
    List Instance → List Instance × Option Nat
  | [] => ([], none)
  | inst :: rest =>
    if inst.id = instanceID then (patchInstance inst term stop :: rest, some 0)
    else
      let r := updateProtectionList instanceID term stop rest
      (inst :: r.1, r.2.map (· + 1))

/-- Model of `InstancesView.UpdateProtection`: patch the matching instance (if any);
if no instance matched or protections are not shown, stop; otherwise
rewrite the two protection cells of row `idx+1`. The function is total:
an absent ID raises no error. -/
def updateProtection (v : ViewState) (instanceID : Str) (term stop : Bool) : ViewState :=
  match (updateProtectionList instanceID term stop v.instances).2 with
  | none => { v with instances := (updateProtectionList instanceID term stop v.instances).1 }
  | some idx =>
    if v.showProtections then
      { v with
        instances := (updateProtectionList instanceID term stop v.instances).1
        table := setCell (setCell v.table (idx + 1) 8
            (spaced (formatProtectionCell term true))) (idx + 1) 9
            (spaced (formatProtectionCell stop true)) }
    else { v with instances := (updateProtectionList instanceID term stop v.instances).1 }

theorem updateProtectionList_not_found (instanceID : Str) (term stop : Bool) :
    ∀ l : List Instance, (∀ i ∈ l, i.id ≠ instanceID) →
      updateProtectionList instanceID term stop l = (l, none)
  | [], _ => rfl
  | inst :: rest, h => by
    unfold updateProtectionList
    rw [if_neg (h inst (List.mem_cons_self inst rest))]
    simp [updateProtectionList_not_found instanceID term stop rest
      (fun i hi => h i (List.mem_cons_of_mem inst hi))]

theorem updateProtectionList_found (instanceID : Str) (term stop : Bool) :
    ∀ (l l' : List Instance) (idx : Nat),
      updateProtectionList instanceID term stop l = (l', some idx) →
      ∃ inst, l.get? idx = some inst ∧ inst.id = instanceID ∧
        l' = l.set idx (patchInstance inst term stop)
  | [], l', idx, h => by
    unfold updateProtectionList at h
    have hsnd := congrArg Prod.snd h
    simp at hsnd
  | inst :: rest, l', idx, h => by
    unfold updateProtectionList at h
    by_cases hid : inst.id = instanceID
    · rw [if_pos hid] at h
      obtain ⟨h1, h2⟩ := Prod.mk.injEq _ _ _ _ ▸ h
      have hidx : idx = 0 := by
        have := congrArg Prod.snd h
        simpa using this.symm
      subst hidx
      refine ⟨inst, rfl, hid, ?_⟩
      have := congrArg Prod.fst h
      simp at this
      rw [← this]
      rfl
    · rw [if_neg hid] at h
      have hsnd := congrArg Prod.snd h
      have hfst := congrArg Prod.fst h
      simp at hsnd hfst
      rcases hrec : (updateProtectionList instanceID term stop rest).2 with _ | n
      · rw [hrec] at hsnd
        simp at hsnd
      · rw [hrec] at hsnd
        simp at hsnd
        obtain ⟨inst', hget, hid', hset⟩ := updateProtectionList_found instanceID term stop rest
          (updateProtectionList instanceID term stop rest).1 n (by rw [← hrec])
        refine ⟨inst', ?_, hid', ?_⟩
        · rw [← hsnd]
          simpa using hget
        · rw [← hfst, ← hsnd]
          simp [hset]

theorem setCell_get_ne (t : List (List Str)) (r c : Nat) (v : Str) (r' : Nat) (h : r' ≠ r) :
    (setCell t r c v).get? r' = t.get? r' := by
  unfold setCell
  rcases hrow : t.get? r with _ | row
  · rfl
  · exact List.get?_set_ne _ _ (fun he => h he.symm)

theorem setCell_get_self (t : List (List Str)) (r c : Nat) (v : Str) (row : List Str)
    (h : t.get? r = some row) : (setCell t r c v).get? r = some (row.set c v) := by
  unfold setCell
  rw [h]
  have hr : r < t.length := by
    by_contra hge
    rw [List.get?_eq_none.mpr (Nat.le_of_not_lt hge)] at h
    exact absurd h (by simp)
  exact List.get?_set_eq_of_lt _ hr

/-- C9: applying a protection patch for an ID that is not in the current
instance list changes nothing and raises no error (the operation is a
total function); for a present ID, only the matching instance's two
protection fields and known flags are updated and, when the protection
columns are shown, only cells 8 and 9 of that instance's row change —
every other row, every other column, the selection and the remaining
fields of the instance stay as they were. -/
theorem updateProtection_frame (v : ViewState) (instanceID : Str) (term stop : Bool)
    (hcoh : v.table = renderTable v.showProtections v.instances) :
    ((∀ i ∈ v.instances, i.id ≠ instanceID) →
      updateProtection v instanceID term stop = v)
    ∧ (∀ idx, (updateProtectionList instanceID term stop v.instances).2 = some idx →
        ∃ inst, v.instances.get? idx = some inst ∧ inst.id = instanceID ∧
          (let w := updateProtection v instanceID term stop
           w.selected = v.selected
           ∧ w.showProtections = v.showProtections
           ∧ w.instances = v.instances.set idx (patchInstance inst term stop)
           ∧ (∀ j, j ≠ idx → w.instances.get? j = v.instances.get? j)
           ∧ (v.showProtections = false → w.table = v.table)
           ∧ (v.showProtections = true →
               (∀ r, r ≠ idx + 1 → w.table.get? r = v.table.get? r)
               ∧ w.table.get? (idx + 1) =
                   some (((renderRow true inst).set 8
                     (spaced (formatProtectionCell term true))).set 9
                     (spaced (formatProtectionCell stop true)))
               ∧ (∀ c, c ≠ 8 → c ≠ 9 →
                   (((renderRow true inst).set 8
                     (spaced (formatProtectionCell term true))).set 9
                     (spaced (formatProtectionCell stop true))).get? c =
                   (renderRow true inst).get? c)))) := by
  constructor
  · intro habs
    unfold updateProtection
    rw [updateProtectionList_not_found instanceID term stop v.instances habs]
  · intro idx hfound
    obtain ⟨inst, hget, hid, hset⟩ := updateProtectionList_found instanceID term stop
      v.instances (updateProtectionList instanceID term stop v.instances).1 idx
      (by rw [← hfound])
    have hlt : idx < v.instances.length := by
      by_contra hge
      rw [List.get?_eq_none.mpr (Nat.le_of_not_lt hge)] at hget
      exact absurd hget (by simp)
    refine ⟨inst, hget, hid, ?_⟩
    have hrow : v.table.get? (idx + 1) = some (renderRow v.showProtections inst) := by
      rw [hcoh]
      unfold renderTable
      simp only [List.get?_cons_succ]
      rw [List.get?_map, hget]
      rfl
    by_cases hsp : v.showProtections
    · have hw : updateProtection v instanceID term stop =
          { v with
            instances := (updateProtectionList instanceID term stop v.instances).1
            table := setCell (setCell v.table (idx + 1) 8
                (spaced (formatProtectionCell term true))) (idx + 1) 9
                (spaced (formatProtectionCell stop true)) } := by
        unfold updateProtection
        rw [hfound]
        simp [hsp]
      rw [hw]
      refine ⟨rfl, rfl, hset, ?_, ?_, ?_⟩
      · intro j hj
        rw [hset]
        exact List.get?_set_ne _ _ (fun he => hj he.symm)
      · intro hfalse
        rw [hsp] at hfalse
        exact absurd hfalse (by simp)
      · intro _
        have hrow8 : (setCell v.table (idx + 1) 8
            (spaced (formatProtectionCell term true))).get? (idx + 1) =
            some ((renderRow v.showProtections inst).set 8
              (spaced (formatProtectionCell term true))) :=
          setCell_get_self _ _ _ _ _ hrow
        refine ⟨?_, ?_, ?_⟩
        · intro r hr
          rw [setCell_get_ne _ _ _ _ _ hr, setCell_get_ne _ _ _ _ _ hr]
        · rw [setCell_get_self _ _ _ _ _ hrow8]
          rw [hsp]
        · intro c h8 h9
          rw [List.get?_set_ne _ _ (fun he => h9 he.symm),
            List.get?_set_ne _ _ (fun he => h8 he.symm)]
    · have hsp' : v.showProtections = false := by
        simpa using hsp
      have hw : updateProtection v instanceID term stop =
          { v with instances := (updateProtectionList instanceID term stop v.instances).1 } := by
        unfold updateProtection
        rw [hfound]
        simp [hsp]
      rw [hw]
      refine ⟨rfl, rfl, hset, ?_, fun _ => rfl, ?_⟩
      · intro j hj
        rw [hset]
        exact List.get?_set_ne _ _ (fun he => hj he.symm)
      · intro htrue
        rw [hsp'] at htrue
        exact absurd htrue (by simp)

/-- A concrete rendered view used to witness `updateProtection_frame`. -/
def c9view : ViewState :=
  { instances := [c4i1, c4i2]
    table := renderTable true [c4i1, c4i2]
    selected := 0
    showProtections := true }

/-- Witness for `updateProtection_frame`: a patch for the absent ID `i-9`
leaves the concrete rendered view untouched. -/
theorem updateProtection_frame_witness :
    c9view.table = renderTable c9view.showProtections c9view.instances ∧
    updateProtection c9view ("i-9".toList) true false = c9view :=
  ⟨rfl, (updateProtection_frame c9view ("i-9".toList) true false rfl).1 (by decide)⟩

/-- The refresh-coordination state of the UI, as relevant to the refresh
claims. `pending` counts goroutines spawned by `RefreshInstances` that
have not yet entered the gateway call; `inFlight` counts goroutines whose
`ListInstances` call is outstanding; `listCalls` counts calls of the
gateway's `DescribeInstances`. `clientInstances` is the `EC2Client`
snapshot cache (`c.instances`), `viewInstances`/`viewTable` the rendered
state of `InstancesView`, `filter` the current filter text and `status`
the status-bar text. -/
structure RefreshState where
  pending : Nat
  inFlight : Nat
  listCalls : Nat
  filter : Str
  clientInstances : List Instance
  viewInstances : List Instance
  viewTable : List (List Str)
  status : Str
  showProtections : Bool
deriving Repr

/-- Events of the refresh system.

* `trigger` — one call of `UI.RefreshInstances` (timer tick or manual
  key): takes `refreshMutex`, sets the status to "Refreshing
  instances...", spawns the refresh goroutine and returns. The mutex is
  released at that point; it does not outlive the spawn.
* `setFilter f` — one call of `UI.SetFilter(f)`: stores the filter and
  then calls `RefreshInstances` (status + spawn as above).
* `startList` — a spawned refresh goroutine enters
  `EC2Client.ListInstances`, which issues the gateway call.
* `finishErr e` — the gateway call returns error `e`: the goroutine logs,
  sets the status-bar error text and returns; nothing else changes.
* `finishOk sorted` — the gateway call returns; `sorted` is the converted
  and comparator-sorted listing: the client snapshot is replaced, the
  current filter is applied, and the view is re-rendered. -/
inductive REvent
  | trigger
  | setFilter (f : Str)
  | startList
  | finishErr (e : Str)
  | finishOk (sorted : List Instance)

/-- One atomic step of the refresh system. Guards (`Option.none`) mark
events that cannot occur in the given state: a goroutine can only start a
gateway call if one was spawned, and can only finish one that is
outstanding. -/
def rstep (s : RefreshState) : REvent → Option RefreshState
  | .trigger => some { s with
      pending := s.pending + 1
      status := "Refreshing instances...".toList }
  | .setFilter f => some { s with
      filter := f
      pending := s.pending + 1
      status := "Refreshing instances...".toList }
  | .startList =>
    if s.pending = 0 then none
    else some { s with
      pending := s.pending - 1
      inFlight := s.inFlight + 1
      listCalls := s.listCalls + 1 }
  | .finishErr e =>
    if s.inFlight = 0 then none
    else some { s with
      inFlight := s.inFlight - 1
      status := "Error: ".toList ++ e }
  | .finishOk sorted =>
    if s.inFlight = 0 then none
    else some { s with
      inFlight := s.inFlight - 1
      clientInstances := sorted
      viewInstances := applyFilter s.filter sorted
      viewTable := renderTable s.showProtections (applyFilter s.filter sorted)
      status := ("Found ".toList ++ natToStr (applyFilter s.filter sorted).length
        ++ " instances".toList) }

/-- Run a sequence of refresh events from a state. -/
def rrun (s : RefreshState) : List REvent → Option RefreshState
  | [] => some s
  | e :: tr =>
    match rstep s e with
    | some s' => rrun s' tr
    | none => none

/-- The initial refresh state: nothing spawned, nothing fetched. -/
def rinit (showProt : Bool) : RefreshState :=
  { pending := 0
    inFlight := 0
    listCalls := 0
    filter := []
    clientInstances := []
    viewInstances := []
    viewTable := renderTable showProt []
    status := "Starting...".toList
    showProtections := showProt }

/-- Number of refresh triggers (timer tick, manual trigger or filter
change) in a trace. -/
def countTriggers : List REvent → Nat
  | [] => 0
  | .trigger :: tr => countTriggers tr + 1
  | .setFilter _ :: tr => countTriggers tr + 1
  | _ :: tr => countTriggers tr

/-- C1 counterexample: `RefreshInstances` holds `refreshMutex` only while
spawning the refresh goroutine, not across the gateway call, and tracks
no `Refreshing` state. In the trace
`[trigger, startList, trigger, startList]` the second trigger arrives
while the first refresh's gateway call is still in flight, yet it is not
ignored: afterwards two full refreshes are in flight at once and the
gateway's list operation has been called twice. -/
theorem refresh_trigger_not_coalesced :
    (rrun (rinit false)
        [REvent.trigger, REvent.startList, REvent.trigger, REvent.startList]).map
      (fun s => (s.inFlight, s.listCalls)) = some (2, 2) := rfl

theorem rrun_calls_triggers : ∀ (tr : List REvent) (s s' : RefreshState),
    rrun s tr = some s' →
      s'.listCalls + s'.pending = s.listCalls + s.pending + countTriggers tr := by
  intro tr
  induction tr with
  | nil =>
    intro s s' h
    unfold rrun at h
    injection h with h
    subst h
    simp [countTriggers]
  | cons e tr ih =>
    intro s s' h
    unfold rrun at h
    rcases he : rstep s e with _ | s₁
    · rw [he] at h
      exact absurd h (by simp)
    · rw [he] at h
      have hrec := ih s₁ s' h
      cases e with
      | trigger =>
        simp only [rstep] at he
        injection he with he
        subst he
        simp [countTriggers] at hrec ⊢
        omega
      | setFilter f =>
        simp only [rstep] at he
        injection he with he
        subst he
        simp [countTriggers] at hrec ⊢
        omega
      | startList =>
        simp only [rstep] at he
        by_cases hz : s.pending = 0
        · rw [if_pos hz] at he
          exact absurd he (by simp)
        · rw [if_neg hz] at he
          injection he with he
          subst he
          simp [countTriggers] at hrec ⊢
          omega
      | finishErr e' =>
        simp only [rstep] at he
        by_cases hz : s.inFlight = 0
        · rw [if_pos hz] at he
          exact absurd he (by simp)
        · rw [if_neg hz] at he
          injection he with he
          subst he
          simp [countTriggers] at hrec ⊢
          omega
      | finishOk sorted =>
        simp only [rstep] at he
        by_cases hz : s.inFlight = 0
        · rw [if_pos hz] at he
          exact absurd he (by simp)
        · rw [if_neg hz] at he
          injection he with he
          subst he
          simp [countTriggers] at hrec ⊢
          omega

/-- C1 amended: refresh triggers are NOT coalesced. The `refreshMutex`
serializes only the synchronous trigger handling (status write and
goroutine spawn); every trigger — also one issued while another refresh
is in flight — spawns its own refresh goroutine, which performs its own
gateway list call when scheduled. In every reachable state, gateway list
calls plus not-yet-started refresh goroutines equal the number of
triggers issued; no trigger is dropped. -/
theorem refresh_trigger_accounting (showProt : Bool) (tr : List REvent) (s : RefreshState)
    (h : rrun (rinit showProt) tr = some s) :
    s.listCalls + s.pending = countTriggers tr := by
  have := rrun_calls_triggers tr (rinit showProt) s h
  simpa [rinit] using this

/-- Witness for `refresh_trigger_accounting`: one trigger followed by its
gateway call. -/
theorem refresh_trigger_accounting_witness :
    rrun (rinit false) [REvent.trigger, REvent.startList] =
      some { rinit false with
        inFlight := 1
        listCalls := 1
        status := "Refreshing instances...".toList } ∧
    ({ rinit false with
        inFlight := 1
        listCalls := 1
        status := "Refreshing instances...".toList } : RefreshState).listCalls +
      ({ rinit false with
        inFlight := 1
        listCalls := 1
        status := "Refreshing instances...".toList } : RefreshState).pending =
      countTriggers [REvent.trigger, REvent.startList] :=
  ⟨rfl, refresh_trigger_accounting false [REvent.trigger, REvent.startList] _ rfl⟩

/-- C2: when the gateway's list call returns an error, the refresh
goroutine logs, writes the error to the status line and returns: the
client snapshot, the rendered instances and table, the filter and the
call counter are all left exactly as they were (no partial overwrite, no
retry within the attempt); only the in-flight counter drops. -/
theorem refresh_gateway_error_preserves_state (s : RefreshState) (e : Str)
    (s' : RefreshState) (h : rstep s (REvent.finishErr e) = some s') :
    s'.clientInstances = s.clientInstances
    ∧ s'.viewInstances = s.viewInstances
    ∧ s'.viewTable = s.viewTable
    ∧ s'.filter = s.filter
    ∧ s'.status = "Error: ".toList ++ e
    ∧ s'.listCalls = s.listCalls
    ∧ s'.pending = s.pending
    ∧ s'.inFlight = s.inFlight - 1 := by
  simp only [rstep] at h
  by_cases hz : s.inFlight = 0
  · rw [if_pos hz] at h
    exact absurd h (by simp)
  · rw [if_neg hz] at h
    injection h with h
    subst h
    exact ⟨rfl, rfl, rfl, rfl, rfl, rfl, rfl, rfl⟩

/-- A refresh state with one outstanding gateway call, used as witness
input for the error-path claims. -/
def c2state : RefreshState :=
  { pending := 0
    inFlight := 1
    listCalls := 1
    filter := []
    clientInstances := [c4i1]
    viewInstances := [c4i1]
    viewTable := renderTable false [c4i1]
    status := []
    showProtections := false }

/-- Witness for `refresh_gateway_error_preserves_state` at a concrete
failing refresh. -/
theorem refresh_gateway_error_witness :
    rstep c2state (REvent.finishErr "boom".toList) =
      some { c2state with
        inFlight := 0
        status := "Error: boom".toList } ∧
    ({ c2state with
        inFlight := 0
        status := "Error: boom".toList } : RefreshState).clientInstances =
      c2state.clientInstances :=
  ⟨rfl, (refresh_gateway_error_preserves_state c2state ("boom".toList) _ rfl).1⟩

/-- The state used by the C5 counterexample: a fetched snapshot with one
instance is cached and rendered. -/
def c5state : RefreshState :=
  { pending := 0
    inFlight := 0
    listCalls := 1
    filter := []
    clientInstances := [c4i1]
    viewInstances := [c4i1]
    viewTable := renderTable false [c4i1]
    status := []
    showProtections := false }

/-- C5 counterexample: `SetFilter` does not re-render from the cached raw
snapshot and does not avoid the gateway. With snapshot `[c4i1]` cached
and rendered, `SetFilter "zzz"` leaves the rendered instances unchanged
(`[c4i1]`, although the claimed immediate local re-render would show no
matching instance) and spawns a refresh; when the spawned goroutine is
scheduled, the gateway list-call counter rises from 1 to 2 — one new
remote call, not zero. -/
theorem setFilter_not_local_rerender :
    (rrun c5state [REvent.setFilter ("zzz".toList)]).map
      (fun s => (s.viewInstances, s.listCalls, s.pending)) = some ([c4i1], 1, 1)
    ∧ (rrun c5state [REvent.setFilter ("zzz".toList), REvent.startList]).map
      (fun s => s.listCalls) = some 2 :=
  ⟨rfl, rfl⟩

/-- C5 amended: `SetFilter f` stores the filter and invokes a full
refresh: one additional gateway list call is made, and the table is then
re-rendered from the freshly fetched listing with the new filter applied
(not from the cached raw snapshot). -/
theorem setFilter_refreshes_remotely (s : RefreshState) (f : Str)
    (sorted : List Instance) (s' : RefreshState)
    (h : rrun s [REvent.setFilter f, REvent.startList, REvent.finishOk sorted] = some s') :
    s'.listCalls = s.listCalls + 1
    ∧ s'.filter = f
    ∧ s'.clientInstances = sorted
    ∧ s'.viewInstances = applyFilter f sorted
    ∧ s'.viewTable = renderTable s.showProtections (applyFilter f sorted)
    ∧ s'.pending = s.pending
    ∧ s'.inFlight = s.inFlight := by
  unfold rrun rstep at h
  simp only [Nat.succ_ne_zero, if_false] at h
  injection h with h
  subst h
  exact ⟨rfl, rfl, rfl, rfl, rfl, rfl, rfl⟩

/-- Witness for `setFilter_refreshes_remotely` at a concrete state. -/
theorem setFilter_refreshes_remotely_witness :
    rrun c5state
        [REvent.setFilter ("zzz".toList), REvent.startList, REvent.finishOk [c4i2]] =
      some { c5state with
        filter := "zzz".toList
        listCalls := 2
        clientInstances := [c4i2]
        viewInstances := applyFilter ("zzz".toList) [c4i2]
        viewTable := renderTable false (applyFilter ("zzz".toList) [c4i2])
        status := ("Found ".toList ++ natToStr (applyFilter ("zzz".toList) [c4i2]).length
          ++ " instances".toList) } ∧
    ({ c5state with
        filter := "zzz".toList
        listCalls := 2
        clientInstances := [c4i2]
        viewInstances := applyFilter ("zzz".toList) [c4i2]
        viewTable := renderTable false (applyFilter ("zzz".toList) [c4i2])
        status := ("Found ".toList ++ natToStr (applyFilter ("zzz".toList) [c4i2]).length
          ++ " instances".toList) } : RefreshState).listCalls = c5state.listCalls + 1 :=
  ⟨rfl, (setFilter_refreshes_remotely c5state ("zzz".toList) [c4i2] _ rfl).1⟩

/-- Phase of one enrichment goroutine spawned by
`EC2Client.FetchProtectionStatuses` (`internal/aws/ec2.go`):

* `spawned` — goroutine created in the loop, blocked on `sem <- struct{}{}`;
* `fetching` — semaphore slot held, `getProtectionAttributes` outstanding;
* `emitready` — slot released (`<-sem`), fetch succeeded, about to send on
  the results channel;
* `done` — returned (after the send and cache write, or directly after a
  logged fetch error), i.e. `wg.Done` has run. -/
inductive Phase
  | spawned
  | fetching
  | emitready
  | done
deriving DecidableEq, Repr

/-- State of the worker pool of one `FetchProtectionStatuses` call: one
phase per instance ID (by position), the results sent on the stream so
far (the consumer drains the channel, as `fetchProtectionsInBackground`
does) and whether `close(results)` has run. -/
structure EnrichState where
  phases : List Phase
  emitted : List ProtectionStatus
  closed : Bool
deriving DecidableEq, Repr

/-- Scheduler events of the worker pool. -/
inductive EEvent
  | acquire (i : Nat)
  | finishFetch (i : Nat)
  | emit (i : Nat)
  | closeStream
deriving DecidableEq, Repr

/-- Number of tasks currently holding a semaphore slot, i.e. executing the
remote attribute fetch. -/
def countFetching (phases : List Phase) : Nat :=
  phases.countP (fun p => p == Phase.fetching)

/-- The `model.ProtectionStatus` value sent for a successful fetch. -/
def mkResult (id : Str) (pr : Bool × Bool) : ProtectionStatus :=
  { instanceID := id
    terminationProtection := pr.1
    stopProtection := pr.2 }

/-- One step of the `FetchProtectionStatuses` worker pool, for instance
IDs `ids`, per-task fetch outcomes `outcome` (`none` is a fetch error)
and semaphore capacity `workerLimit` (`make(chan struct{}, workerLimit)`,
a Go `int`).

* `acquire i`: the send `sem <- struct{}{}` completes — only possible
  while fewer than `workerLimit` slots are held;
* `finishFetch i`: `getProtectionAttributes` returns and `<-sem` releases
  the slot; on error the goroutine logs and returns, otherwise it
  proceeds to the send;
* `emit i`: the send on `results` completes (the consumer is draining);
* `closeStream`: `wg.Wait()` returns — only once every goroutine is done
  — and `defer close(results)` closes the stream. -/
def estep (ids : List Str) (outcome : Nat → Option (Bool × Bool)) (workerLimit : Int)
    (s : EnrichState) : EEvent → Option EnrichState
  | .acquire i =>
    if s.phases.get? i = some Phase.spawned ∧ (countFetching s.phases : Int) < workerLimit then
      some { s with phases := s.phases.set i Phase.fetching }
    else none
  | .finishFetch i =>
    if s.phases.get? i = some Phase.fetching then
      match outcome i with
      | none => some { s with phases := s.phases.set i Phase.done }
      | some _ => some { s with phases := s.phases.set i Phase.emitready }
    else none
  | .emit i =>
    match s.phases.get? i, ids.get? i, outcome i with
    | some Phase.emitready, some id, some pr =>
      some { s with
        phases := s.phases.set i Phase.done
        emitted := s.emitted ++ [mkResult id pr] }
    | _, _, _ => none
  | .closeStream =>
    if s.closed = false ∧ ∀ p ∈ s.phases, p = Phase.done then
      some { s with closed := true }
    else none

/-- Run a sequence of worker-pool events. -/
def erun (ids : List Str) (outcome : Nat → Option (Bool × Bool)) (workerLimit : Int)
    (s : EnrichState) : List EEvent → Option EnrichState
  | [] => some s
  | e :: tr =>
    match estep ids outcome workerLimit s e with
    | some s' => erun ids outcome workerLimit s' tr
    | none => none

/-- Initial pool state: one spawned goroutine per instance ID, nothing
emitted, stream open. -/
def einit (n : Nat) : EnrichState :=
  { phases := List.replicate n Phase.spawned
    emitted := []
    closed := false }

/-- Number of `closeStream` events in a trace. -/
def countClose : List EEvent → Nat
  | [] => 0
  | .closeStream :: tr => countClose tr + 1
  | _ :: tr => countClose tr

theorem countP_set (p : Phase → Bool) :
    ∀ (l : List Phase) (i : Nat) (a b : Phase), l.get? i = some a →
      ((l.set i b).countP p) + (if p a then 1 else 0) =
        l.countP p + (if p b then 1 else 0)
  | [], i, a, b, h => by simp at h
  | x :: t, 0, a, b, h => by
    injection h with h
    subst h
    simp [List.countP_cons]
    omega
  | x :: t, i + 1, a, b, h => by
    simp only [List.get?_cons_succ] at h
    have := countP_set p t i a b h
    simp only [List.set_cons_succ, List.countP_cons]
    omega

theorem estep_fetching_le (ids : List Str) (outcome : Nat → Option (Bool × Bool))
    (K : Int) (s s' : EnrichState) (e : EEvent)
    (h : estep ids outcome K s e = some s')
    (hle : (countFetching s.phases : Int) ≤ K) :
    (countFetching s'.phases : Int) ≤ K := by
  cases e with
  | acquire i =>
    simp only [estep] at h
    by_cases hg : s.phases.get? i = some Phase.spawned ∧ (countFetching s.phases : Int) < K
    · rw [if_pos hg] at h
      injection h with h
      subst h
      have hcount := countP_set (fun p => p == Phase.fetching) s.phases i
        Phase.spawned Phase.fetching hg.1
      have hlt := hg.2
      simp [countFetching] at hlt ⊢
      simp at hcount
      omega
    · rw [if_neg hg] at h
      exact absurd h (by simp)
  | finishFetch i =>
    simp only [estep] at h
    by_cases hg : s.phases.get? i = some Phase.fetching
    · rw [if_pos hg] at h
      rcases ho : outcome i with _ | pr
      · rw [ho] at h
        injection h with h
        subst h
        have hcount := countP_set (fun p => p == Phase.fetching) s.phases i
          Phase.fetching Phase.done hg
        simp [countFetching] at hle ⊢
        simp at hcount
        omega
      · rw [ho] at h
        injection h with h
        subst h
        have hcount := countP_set (fun p => p == Phase.fetching) s.phases i
          Phase.fetching Phase.emitready hg
        simp [countFetching] at hle ⊢
        simp at hcount
        omega
    · rw [if_neg hg] at h
      exact absurd h (by simp)
  | emit i =>
    simp only [estep] at h
    rcases hp : s.phases.get? i with _ | ph
    · rw [hp] at h
      exact absurd h (by simp)
    · rw [hp] at h
      cases ph with
      | spawned => exact absurd h (by simp)
      | fetching => exact absurd h (by simp)
      | done => exact absurd h (by simp)
      | emitready =>
        rcases hid : ids.get? i with _ | id
        · rw [hid] at h
          exact absurd h (by simp)
        · rw [hid] at h
          rcases ho : outcome i with _ | pr
          · rw [ho] at h
            exact absurd h (by simp)
          · rw [ho] at h
            injection h with h
            subst h
            have hcount := countP_set (fun p => p == Phase.fetching) s.phases i
              Phase.emitready Phase.done hp
            simp [countFetching] at hle ⊢
            simp at hcount
            omega
  | closeStream =>
    simp only [estep] at h
    by_cases hg : s.closed = false ∧ ∀ p ∈ s.phases, p = Phase.done
    · rw [if_pos hg] at h
      injection h with h
      subst h
      exact hle
    · rw [if_neg hg] at h
      exact absurd h (by simp)

theorem erun_fetching_le (ids : List Str) (outcome : Nat → Option (Bool × Bool)) (K : Int) :
    ∀ (tr : List EEvent) (s s' : EnrichState), erun ids outcome K s tr = some s' →
      (countFetching s.phases : Int) ≤ K → (countFetching s'.phases : Int) ≤ K := by
  intro tr
  induction tr with
  | nil =>
    intro s s' h hle
    unfold erun at h
    injection h with h
    subst h
    exact hle
  | cons e tr ih =>
    intro s s' h hle
    unfold erun at h
    rcases he : estep ids outcome K s e with _ | s₁
    · rw [he] at h
      exact absurd h (by simp)
    · rw [he] at h
      exact ih s₁ s' h (estep_fetching_le ids outcome K s s₁ e he hle)

/-- C6: for every ID list and every concurrency limit `K ≥ 1` given to
`FetchProtectionStatuses`, at no reachable point do more than `K` tasks
hold a semaphore slot (i.e. execute the remote attribute fetch)
concurrently; admission beyond `K` blocks (`acquire` is disabled) rather
than dropping any task. -/
theorem fetchProtectionStatuses_bounded (ids : List Str)
    (outcome : Nat → Option (Bool × Bool)) (K : Int) (hK : 1 ≤ K)
    (tr : List EEvent) (s' : EnrichState)
    (h : erun ids outcome K (einit ids.length) tr = some s') :
    (countFetching s'.phases : Int) ≤ K := by
  refine erun_fetching_le ids outcome K tr (einit ids.length) s' h ?_
  have : countFetching (List.replicate ids.length Phase.spawned) = 0 := by
    rw [countFetching, List.countP_eq_zero]
    intro p hp
    rw [List.eq_of_mem_replicate hp]
    simp
  rw [einit, this]
  omega

/-- Witness for `fetchProtectionStatuses_bounded`: two IDs, limit 1, one
task admitted. -/
theorem fetchProtectionStatuses_bounded_witness :
    (1 : Int) ≤ 1 ∧
    erun ["a".toList, "b".toList] (fun _ => some (true, false)) 1 (einit 2)
        [EEvent.acquire 0] =
      some { phases := [Phase.fetching, Phase.spawned], emitted := [], closed := false } ∧
    (countFetching ([Phase.fetching, Phase.spawned]) : Int) ≤ 1 :=
  ⟨le_refl 1, by decide,
    fetchProtectionStatuses_bounded ["a".toList, "b".toList] (fun _ => some (true, false)) 1
      (le_refl 1) [EEvent.acquire 0]
      { phases := [Phase.fetching, Phase.spawned], emitted := [], closed := false }
      (by decide)⟩

/-- The result task `i` has contributed to the stream once it is done:
`some` only for a completed task whose fetch succeeded. -/
def doneEntry (ids : List Str) (outcome : Nat → Option (Bool × Bool))
    (phases : List Phase) (i : Nat) : Option ProtectionStatus :=
  if phases.get? i = some Phase.done then
    match ids.get? i, outcome i with
    | some id, some pr => some (mkResult id pr)
    | _, _ => none
  else none

/-- All results contributed by completed tasks, in task order. -/
def doneSuccess (ids : List Str) (outcome : Nat → Option (Bool × Bool))
    (phases : List Phase) : List ProtectionStatus :=
  (List.range ids.length).filterMap (doneEntry ids outcome phases)

/-- The result task `i` is expected to deliver: `some` exactly for a
successful fetch. -/
def successEntry (ids : List Str) (outcome : Nat → Option (Bool × Bool))
    (i : Nat) : Option ProtectionStatus :=
  match ids.get? i, outcome i with
  | some id, some pr => some (mkResult id pr)
  | _, _ => none

/-- One result per succeeded ID, none for failed IDs, in task order. -/
def successResults (ids : List Str) (outcome : Nat → Option (Bool × Bool)) :
    List ProtectionStatus :=
  (List.range ids.length).filterMap (successEntry ids outcome)

/-- The inductive invariant of the worker pool: the phase list keeps one
entry per ID, the stream contents are exactly the contributions of the
completed tasks (up to emission order), and a closed stream means every
task has completed. -/
def EnrichInv (ids : List Str) (outcome : Nat → Option (Bool × Bool))
    (s : EnrichState) : Prop :=
  s.phases.length = ids.length
  ∧ s.emitted.Perm (doneSuccess ids outcome s.phases)
  ∧ (s.closed = true → ∀ p ∈ s.phases, p = Phase.done)

theorem doneEntry_set_ne (ids : List Str) (outcome : Nat → Option (Bool × Bool))
    (phases : List Phase) (i : Nat) (b : Phase) (j : Nat) (h : j ≠ i) :
    doneEntry ids outcome (phases.set i b) j = doneEntry ids outcome phases j := by
  unfold doneEntry
  rw [List.get?_set_ne _ _ (fun he => h he.symm)]

theorem doneSuccess_set_not_done (ids : List Str) (outcome : Nat → Option (Bool × Bool))
    (phases : List Phase) (i : Nat) (a b : Phase) (hget : phases.get? i = some a)
    (ha : a ≠ Phase.done) (hb : b ≠ Phase.done) :
    doneSuccess ids outcome (phases.set i b) = doneSuccess ids outcome phases := by
  unfold doneSuccess
  refine List.filterMap_congr ?_
  intro j _
  by_cases hj : j = i
  · subst hj
    unfold doneEntry
    rw [hget]
    have hlt : j < phases.length := by
      by_contra hge
      rw [List.get?_eq_none.mpr (Nat.le_of_not_lt hge)] at hget
      exact absurd hget (by simp)
    rw [List.get?_set_eq_of_lt _ hlt]
    rw [if_neg (by simpa using hb), if_neg (by simpa using ha)]
  · exact doneEntry_set_ne ids outcome phases i b j hj

theorem doneSuccess_set_done_fail (ids : List Str) (outcome : Nat → Option (Bool × Bool))
    (phases : List Phase) (i : Nat) (a : Phase) (hget : phases.get? i = some a)
    (ha : a ≠ Phase.done) (ho : outcome i = none) :
    doneSuccess ids outcome (phases.set i Phase.done) = doneSuccess ids outcome phases := by
  unfold doneSuccess
  refine List.filterMap_congr ?_
  intro j _
  by_cases hj : j = i
  · subst hj
    unfold doneEntry
    rw [hget]
    have hlt : j < phases.length := by
      by_contra hge
      rw [List.get?_eq_none.mpr (Nat.le_of_not_lt hge)] at hget
      exact absurd hget (by simp)
    rw [List.get?_set_eq_of_lt _ hlt]
    rw [if_pos rfl, if_neg (by simpa using ha), ho]
    rcases ids.get? j with _ | id <;> rfl
  · exact doneEntry_set_ne ids outcome phases i Phase.done j hj

theorem filterMap_perm_insert {β : Type _} (g f : Nat → Option β) (r : β) (i : Nat) :
    ∀ (idxs : List Nat), idxs.Nodup → i ∈ idxs → f i = none → g i = some r →
      (∀ j ∈ idxs, j ≠ i → f j = g j) →
      (idxs.filterMap g).Perm (r :: idxs.filterMap f)
  | [], _, hmem, _, _, _ => absurd hmem (by simp)
  | a :: t, hnd, hmem, hf, hg, hcong => by
    by_cases ha : a = i
    · subst ha
      have hnott : a ∉ t := (List.nodup_cons.mp hnd).1
      have heq : t.filterMap f = t.filterMap g := by
        refine List.filterMap_congr ?_
        intro j hj
        exact hcong j (List.mem_cons_of_mem a hj) (fun hji => hnott (hji ▸ hj))
      rw [List.filterMap_cons, List.filterMap_cons, hf, hg, heq]
    · have hmem' : i ∈ t := by
        rcases List.mem_cons.mp hmem with h | h
        · exact absurd h.symm ha
        · exact h
      have hfa : f a = g a := hcong a (List.mem_cons_self a t) ha
      have ih := filterMap_perm_insert g f r i t (List.nodup_cons.mp hnd).2 hmem' hf hg
        (fun j hj hji => hcong j (List.mem_cons_of_mem a hj) hji)
      rw [List.filterMap_cons, List.filterMap_cons, hfa]
      rcases hga : g a with _ | b
      · exact ih
      · refine (ih.cons b).trans ?_
        exact List.Perm.swap r b _

theorem estep_inv (ids : List Str) (outcome : Nat → Option (Bool × Bool)) (K : Int)
    (s s' : EnrichState) (e : EEvent) (h : estep ids outcome K s e = some s')
    (hinv : EnrichInv ids outcome s) : EnrichInv ids outcome s' := by
  obtain ⟨hlen, hperm, hclosed⟩ := hinv
  cases e with
  | acquire i =>
    simp only [estep] at h
    by_cases hg : s.phases.get? i = some Phase.spawned ∧ (countFetching s.phases : Int) < K
    · rw [if_pos hg] at h
      injection h with h
      subst h
      refine ⟨by simpa using hlen, ?_, ?_⟩
      · rw [doneSuccess_set_not_done ids outcome s.phases i Phase.spawned Phase.fetching hg.1
          (by simp) (by simp)]
        exact hperm
      · intro hc
        exfalso
        have := hclosed hc Phase.spawned (List.get?_mem hg.1)
        simp at this
    · rw [if_neg hg] at h
      exact absurd h (by simp)
  | finishFetch i =>
    simp only [estep] at h
    by_cases hg : s.phases.get? i = some Phase.fetching
    · rw [if_pos hg] at h
      rcases ho : outcome i with _ | pr
      · rw [ho] at h
        injection h with h
        subst h
        refine ⟨by simpa using hlen, ?_, ?_⟩
        · rw [doneSuccess_set_done_fail ids outcome s.phases i Phase.fetching hg (by simp) ho]
          exact hperm
        · intro hc
          exfalso
          have := hclosed hc Phase.fetching (List.get?_mem hg)
          simp at this
      · rw [ho] at h
        injection h with h
        subst h
        refine ⟨by simpa using hlen, ?_, ?_⟩
        · rw [doneSuccess_set_not_done ids outcome s.phases i Phase.fetching Phase.emitready hg
            (by simp) (by simp)]
          exact hperm
        · intro hc
          exfalso
          have := hclosed hc Phase.fetching (List.get?_mem hg)
          simp at this
    · rw [if_neg hg] at h
      exact absurd h (by simp)
  | emit i =>
    simp only [estep] at h
    rcases hp : s.phases.get? i with _ | ph
    · rw [hp] at h
      exact absurd h (by simp)
    · rw [hp] at h
      cases ph with
      | spawned => exact absurd h (by simp)
      | fetching => exact absurd h (by simp)
      | done => exact absurd h (by simp)
      | emitready =>
        rcases hid : ids.get? i with _ | id
        · rw [hid] at h
          exact absurd h (by simp)
        · rw [hid] at h
          rcases ho : outcome i with _ | pr
          · rw [ho] at h
            exact absurd h (by simp)
          · rw [ho] at h
            injection h with h
            subst h
            have hlti : i < ids.length := by
              by_contra hge
              rw [List.get?_eq_none.mpr (Nat.le_of_not_lt hge)] at hid
              exact absurd hid (by simp)
            have hltp : i < s.phases.length := by
              by_contra hge
              rw [List.get?_eq_none.mpr (Nat.le_of_not_lt hge)] at hp
              exact absurd hp (by simp)
            refine ⟨by simpa using hlen, ?_, ?_⟩
            · have hins : (doneSuccess ids outcome (s.phases.set i Phase.done)).Perm
                  (mkResult id pr :: doneSuccess ids outcome s.phases) := by
                unfold doneSuccess
                refine filterMap_perm_insert _ _ (mkResult id pr) i (List.range ids.length)
                  (List.nodup_range _) (List.mem_range.mpr hlti) ?_ ?_ ?_
                · unfold doneEntry
                  rw [hp]
                  simp
                · unfold doneEntry
                  rw [List.get?_set_eq_of_lt _ hltp, if_pos rfl, hid, ho]
                · intro j _ hji
                  exact (doneEntry_set_ne ids outcome s.phases i Phase.done j hji).symm
              have hstep : (s.emitted ++ [mkResult id pr]).Perm
                  (mkResult id pr :: doneSuccess ids outcome s.phases) := by
                refine (List.perm_append_singleton _ _).trans ?_
                exact hperm.cons (mkResult id pr)
              exact hstep.trans hins.symm
            · intro hc
              exfalso
              have := hclosed hc Phase.emitready (List.get?_mem hp)
              simp at this
  | closeStream =>
    simp only [estep] at h
    by_cases hg : s.closed = false ∧ ∀ p ∈ s.phases, p = Phase.done
    · rw [if_pos hg] at h
      injection h with h
      subst h
      exact ⟨hlen, hperm, fun _ => hg.2⟩
    · rw [if_neg hg] at h
      exact absurd h (by simp)

theorem erun_inv (ids : List Str) (outcome : Nat → Option (Bool × Bool)) (K : Int) :
    ∀ (tr : List EEvent) (s s' : EnrichState), erun ids outcome K s tr = some s' →
      EnrichInv ids outcome s → EnrichInv ids outcome s' := by
  intro tr
  induction tr with
  | nil =>
    intro s s' h hinv
    unfold erun at h
    injection h with h
    subst h
    exact hinv
  | cons e tr ih =>
    intro s s' h hinv
    unfold erun at h
    rcases he : estep ids outcome K s e with _ | s₁
    · rw [he] at h
      exact absurd h (by simp)
    · rw [he] at h
      exact ih s₁ s' h (estep_inv ids outcome K s s₁ e he hinv)

theorem einit_inv (ids : List Str) (outcome : Nat → Option (Bool × Bool)) :
    EnrichInv ids outcome (einit ids.length) := by
  refine ⟨by simp [einit], ?_, ?_⟩
  · have : doneSuccess ids outcome (List.replicate ids.length Phase.spawned) = [] := by
      unfold doneSuccess
      rw [List.filterMap_eq_nil]
      intro i hi
      unfold doneEntry
      rw [List.get?_eq_getElem?]
      rw [List.getElem?_replicate]
      rw [if_pos (List.mem_range.mp hi)]
      simp
    rw [einit, this]
  · intro hc
    exact absurd hc (by simp [einit])

theorem estep_closed_flag (ids : List Str) (outcome : Nat → Option (Bool × Bool)) (K : Int)
    (s s' : EnrichState) (e : EEvent) (h : estep ids outcome K s e = some s') :
    (e = EEvent.closeStream → s.closed = false ∧ s'.closed = true)
    ∧ (e ≠ EEvent.closeStream → s'.closed = s.closed) := by
  cases e with
  | acquire i =>
    refine ⟨fun hce => absurd hce (by simp), fun _ => ?_⟩
    simp only [estep] at h
    by_cases hg : s.phases.get? i = some Phase.spawned ∧ (countFetching s.phases : Int) < K
    · rw [if_pos hg] at h
      injection h with h
      subst h
      rfl
    · rw [if_neg hg] at h
      exact absurd h (by simp)
  | finishFetch i =>
    refine ⟨fun hce => absurd hce (by simp), fun _ => ?_⟩
    simp only [estep] at h
    by_cases hg : s.phases.get? i = some Phase.fetching
    · rw [if_pos hg] at h
      rcases ho : outcome i with _ | pr
      · rw [ho] at h
        injection h with h
        subst h
        rfl
      · rw [ho] at h
        injection h with h
        subst h
        rfl
    · rw [if_neg hg] at h
      exact absurd h (by simp)
  | emit i =>
    refine ⟨fun hce => absurd hce (by simp), fun _ => ?_⟩
    simp only [estep] at h
    rcases hp : s.phases.get? i with _ | ph
    · rw [hp] at h
      exact absurd h (by simp)
    · rw [hp] at h
      cases ph with
      | spawned => exact absurd h (by simp)
      | fetching => exact absurd h (by simp)
      | done => exact absurd h (by simp)
      | emitready =>
        rcases hid : ids.get? i with _ | id
        · rw [hid] at h
          exact absurd h (by simp)
        · rw [hid] at h
          rcases ho : outcome i with _ | pr
          · rw [ho] at h
            exact absurd h (by simp)
          · rw [ho] at h
            injection h with h
            subst h
            rfl
  | closeStream =>
    refine ⟨fun _ => ?_, fun hne => absurd rfl hne⟩
    simp only [estep] at h
    by_cases hg : s.closed = false ∧ ∀ p ∈ s.phases, p = Phase.done
    · rw [if_pos hg] at h
      injection h with h
      subst h
      exact ⟨hg.1, rfl⟩
    · rw [if_neg hg] at h
      exact absurd h (by simp)

theorem countClose_cons_ne (e : EEvent) (tr : List EEvent) (h : e ≠ EEvent.closeStream) :
    countClose (e :: tr) = countClose tr := by
  cases e with
  | acquire i => rfl
  | finishFetch i => rfl
  | emit i => rfl
  | closeStream => exact absurd rfl h

theorem erun_close_count (ids : List Str) (outcome : Nat → Option (Bool × Bool)) (K : Int) :
    ∀ (tr : List EEvent) (s s' : EnrichState), erun ids outcome K s tr = some s' →
      (s.closed = true → s'.closed = true ∧ countClose tr = 0)
      ∧ (s.closed = false → s'.closed = true → countClose tr = 1)
      ∧ (s.closed = false → s'.closed = false → countClose tr = 0) := by
  intro tr
  induction tr with
  | nil =>
    intro s s' h
    unfold erun at h
    injection h with h
    subst h
    refine ⟨fun hc => ⟨hc, rfl⟩, fun hf ht => absurd ht (by rw [hf]; simp), fun _ _ => rfl⟩
  | cons e tr ih =>
    intro s s' h
    unfold erun at h
    rcases he : estep ids outcome K s e with _ | s₁
    · rw [he] at h
      exact absurd h (by simp)
    · rw [he] at h
      have hflag := estep_closed_flag ids outcome K s s₁ e he
      have ihr := ih s₁ s' h
      by_cases hce : e = EEvent.closeStream
      · subst hce
        obtain ⟨hs0, hs1⟩ := hflag.1 rfl
        refine ⟨fun hc => absurd hc (by rw [hs0]; simp), fun _ _ => ?_, fun _ hf => ?_⟩
        · have := (ihr.1 hs1).2
          simp [countClose, this]
        · exact absurd hf (by rw [(ihr.1 hs1).1]; simp)
      · have heq := hflag.2 hce
        rw [countClose_cons_ne e tr hce]
        refine ⟨fun hc => ?_, fun hf ht => ?_, fun hf ht => ?_⟩
        · exact ihr.1 (by rw [heq, hc])
        · exact ihr.2.1 (by rw [heq, hf]) ht
        · exact ihr.2.2 (by rw [heq, hf]) ht

theorem count_filterMap (g : Nat → Option ProtectionStatus) (b : ProtectionStatus) :
    ∀ l : List Nat, (l.filterMap g).count b = l.countP (fun a => g a == some b) := by
  intro l
  induction l with
  | nil => rfl
  | cons a t ih =>
    rw [List.filterMap_cons, List.countP_cons]
    rcases hga : g a with _ | c
    · simp [ih]
    · rw [List.count_cons, ih]
      by_cases hcb : c = b
      · subst hcb
        simp
      · simp [hcb]

theorem countP_eq_one_unique (q : Nat → Bool) (i₀ : Nat) :
    ∀ l : List Nat, l.Nodup → i₀ ∈ l → q i₀ = true →
      (∀ j ∈ l, j ≠ i₀ → q j = false) → l.countP q = 1 := by
  intro l
  induction l with
  | nil =>
    intro _ hmem
    simp at hmem
  | cons a t ih =>
    intro hnd hmem hq huniq
    rw [List.countP_cons]
    by_cases ha : a = i₀
    · subst ha
      have hz : t.countP q = 0 := by
        rw [List.countP_eq_zero]
        intro j hj
        have hja : j ≠ a := fun hj' => (List.nodup_cons.mp hnd).1 (hj' ▸ hj)
        simp [huniq j (List.mem_cons_of_mem a hj) hja]
      rw [hz, hq]
      simp
    · have hmem' : i₀ ∈ t := by
        rcases List.mem_cons.mp hmem with h | h
        · exact absurd h.symm ha
        · exact h
      rw [ih (List.nodup_cons.mp hnd).2 hmem' hq
        (fun j hj hji => huniq j (List.mem_cons_of_mem a hj) hji)]
      rw [huniq a (List.mem_cons_self a t) ha]
      simp

/-- C7: when the result stream of `FetchProtectionStatuses` has been
closed, every spawned task has completed or failed (the close runs only
after the wait-group join), the stream was closed exactly once, and — for
distinct instance IDs — the stream contents are exactly one
`ProtectionStatus` per ID whose attribute fetch succeeded and nothing for
an ID whose fetch failed; a per-ID failure only drops that ID's own
result and never suppresses the others (the emitted results are a
permutation of all successful fetches). -/
theorem fetchProtectionStatuses_stream (ids : List Str)
    (outcome : Nat → Option (Bool × Bool)) (K : Int) (tr : List EEvent)
    (s' : EnrichState) (hnd : ids.Nodup)
    (h : erun ids outcome K (einit ids.length) tr = some s')
    (hc : s'.closed = true) :
    (∀ p ∈ s'.phases, p = Phase.done)
    ∧ s'.emitted.Perm (successResults ids outcome)
    ∧ countClose tr = 1
    ∧ (∀ i id, ids.get? i = some id →
        (outcome i = none → ∀ r ∈ s'.emitted, r.instanceID ≠ id)
        ∧ (∀ pr, outcome i = some pr → s'.emitted.count (mkResult id pr) = 1)) := by
  obtain ⟨hlen, hperm, hcl⟩ := erun_inv ids outcome K tr (einit ids.length) s' h
    (einit_inv ids outcome)
  have hdone := hcl hc
  have hsucc : doneSuccess ids outcome s'.phases = successResults ids outcome := by
    unfold doneSuccess successResults
    refine List.filterMap_congr ?_
    intro j hj
    have hjlt : j < ids.length := List.mem_range.mp hj
    have hjp : j < s'.phases.length := by
      rw [hlen]
      exact hjlt
    rcases hq : s'.phases.get? j with _ | p
    · rw [List.get?_eq_none] at hq
      omega
    · have hp : p = Phase.done := hdone p (List.get?_mem hq)
      subst hp
      unfold doneEntry successEntry
      rw [hq, if_pos rfl]
  have hperm' : s'.emitted.Perm (successResults ids outcome) := hsucc ▸ hperm
  have hcount := (erun_close_count ids outcome K tr (einit ids.length) s' h).2.1
    (by simp [einit]) hc
  refine ⟨hdone, hperm', hcount, ?_⟩
  intro i id hgi
  have hilt : i < ids.length := by
    by_contra hge
    rw [List.get?_eq_none.mpr (Nat.le_of_not_lt hge)] at hgi
    exact absurd hgi (by simp)
  constructor
  · intro ho r hr
    intro heq
    have hrs : r ∈ successResults ids outcome := hperm'.mem_iff.mp hr
    obtain ⟨j, hjmem, hentry⟩ := List.mem_filterMap.mp hrs
    unfold successEntry at hentry
    rcases hj1 : ids.get? j with _ | idj
    · rw [hj1] at hentry
      exact absurd hentry (by simp)
    · rw [hj1] at hentry
      rcases hj2 : outcome j with _ | prj
      · rw [hj2] at hentry
        exact absurd hentry (by simp)
      · rw [hj2] at hentry
        injection hentry with hentry
        have hrid : r.instanceID = idj := by
          rw [← hentry]
          rfl
        have hjlt : j < ids.length := List.mem_range.mp hjmem
        have hidj : idj = id := by
          rw [← hrid]
          exact heq
        have hji : j = i := List.get?_inj hjlt hnd (by rw [hj1, hidj, ← hgi])
        rw [hji] at hj2
        rw [hj2] at ho
        exact absurd ho (by simp)
  · intro pr ho
    rw [hperm'.count_eq]
    unfold successResults
    rw [count_filterMap]
    refine countP_eq_one_unique _ i (List.range ids.length) (List.nodup_range _)
      (List.mem_range.mpr hilt) ?_ ?_
    · unfold successEntry
      rw [hgi, ho]
      simp
    · intro j hj hji
      unfold successEntry
      rcases hj1 : ids.get? j with _ | idj
      · simp
      · rcases hj2 : outcome j with _ | prj
        · simp
        · have hjlt : j < ids.length := List.mem_range.mp hj
          have hne : idj ≠ id := by
            intro he
            exact hji (List.get?_inj hjlt hnd (by rw [hj1, he, ← hgi]))
          have hner : mkResult idj prj ≠ mkResult id pr := by
            intro he
            exact hne (congrArg ProtectionStatus.instanceID he)
          simp [hner]

/-- Witness for `fetchProtectionStatuses_stream`: two IDs, the fetch for
`b` fails, the stream carries exactly the result for `a` and closes once
after both tasks are done. -/
theorem fetchProtectionStatuses_stream_witness :
    (["a".toList, "b".toList] : List Str).Nodup ∧
    erun ["a".toList, "b".toList] (fun i => if i = 0 then some (true, false) else none) 1
        (einit 2)
        [EEvent.acquire 0, EEvent.finishFetch 0, EEvent.emit 0,
          EEvent.acquire 1, EEvent.finishFetch 1, EEvent.closeStream] =
      some { phases := [Phase.done, Phase.done]
             emitted := [mkResult ("a".toList) (true, false)]
             closed := true } ∧
    ({ phases := [Phase.done, Phase.done]
       emitted := [mkResult ("a".toList) (true, false)]
       closed := true } : EnrichState).emitted.Perm
      (successResults ["a".toList, "b".toList]
        (fun i => if i = 0 then some (true, false) else none)) :=
  ⟨by decide, by decide,
    (fetchProtectionStatuses_stream ["a".toList, "b".toList]
      (fun i => if i = 0 then some (true, false) else none) 1
      [EEvent.acquire 0, EEvent.finishFetch 0, EEvent.emit 0,
        EEvent.acquire 1, EEvent.finishFetch 1, EEvent.closeStream]
      { phases := [Phase.done, Phase.done]
        emitted := [mkResult ("a".toList) (true, false)]
        closed := true }
      (by decide) (by decide) rfl).2.1⟩

/-- The setup performed by the outer goroutine of
`FetchProtectionStatuses` before any worker runs. The goroutine first
registers `defer close(results)` and then executes
`sem := make(chan struct{}, workerLimit)`. For a negative `workerLimit`
the Go runtime panics in `makechan` ("size out of range"); the deferred
`close(results)` then runs during unwinding — closing the result stream —
and the unrecovered panic aborts the process. For a non-negative limit
the worker pool starts with one spawned goroutine per instance ID. -/
inductive StreamSetup
  | panicClosed
  | machine (s : EnrichState)
deriving DecidableEq, Repr

def fetchSetup (workerLimit : Int) (ids : List Str) : StreamSetup :=
  if workerLimit < 0 then StreamSetup.panicClosed
  else StreamSetup.machine (einit ids.length)

/-- Whether `close(results)` has run. -/
def setupStreamClosed : StreamSetup → Bool
  | .panicClosed => true
  | .machine s => s.closed

/-- C10 counterexample: at `workerLimit = -1` (which satisfies the
claim's `workerLimit ≤ 0`) with the non-empty ID list `["i-1"]`, the
channel creation panics and the deferred `close(results)` runs, so the
result stream IS closed — contradicting the claim that for every
`workerLimit ≤ 0` the stream is never closed and can only terminate with
`workerLimit ≥ 1`. -/
theorem fetchProtectionStatuses_negative_limit_closes :
    ((-1 : Int) ≤ 0) ∧ (["i-1".toList] : List Str) ≠ [] ∧
    setupStreamClosed (fetchSetup (-1) ["i-1".toList]) = true := by
  refine ⟨by decide, by decide, rfl⟩

theorem estep_zero_limit_none (ids : List Str) (outcome : Nat → Option (Bool × Bool))
    (hids : ids ≠ []) (e : EEvent) :
    estep ids outcome 0 (einit ids.length) e = none := by
  cases e with
  | acquire i =>
    simp only [estep]
    rw [if_neg]
    rintro ⟨_, hlt⟩
    omega
  | finishFetch i =>
    simp only [estep]
    rw [if_neg]
    intro hget
    have := List.eq_of_mem_replicate (List.get?_mem hget)
    simp at this
  | emit i =>
    simp only [estep, einit]
    rcases hq : (List.replicate ids.length Phase.spawned).get? i with _ | p
    · rfl
    · have hp := List.eq_of_mem_replicate (List.get?_mem hq)
      subst hp
      rfl
  | closeStream =>
    simp only [estep]
    rw [if_neg]
    rintro ⟨_, hall⟩
    have hne : ids.length ≠ 0 := by
      intro hz
      exact hids (List.length_eq_zero.mp hz)
    have hmem : Phase.spawned ∈ (einit ids.length).phases := by
      simp [einit, List.mem_replicate]
      exact hids
    have := hall Phase.spawned hmem
    simp at this

/-- C10 amended: `FetchProtectionStatuses` indeed performs no validation
or defaulting of its concurrency limit, and with `workerLimit = 0` and a
non-empty ID list the pool is permanently stuck: no event can fire, so
every reachable state is the initial one — no task is ever admitted to
the remote fetch, no result is ever emitted and the stream is never
closed; termination of the stream requires `workerLimit ≥ 1`. For
`workerLimit < 0`, however, the claim's "stream is never closed" fails:
channel creation panics, the deferred close closes the stream, and the
process aborts (see the counterexample). -/
theorem fetchProtectionStatuses_zero_limit_stalls (ids : List Str)
    (outcome : Nat → Option (Bool × Bool)) (hids : ids ≠ [])
    (tr : List EEvent) (s' : EnrichState)
    (h : erun ids outcome 0 (einit ids.length) tr = some s') :
    s' = einit ids.length
    ∧ countFetching s'.phases = 0
    ∧ s'.emitted = []
    ∧ s'.closed = false := by
  have hs : s' = einit ids.length := by
    cases tr with
    | nil =>
      unfold erun at h
      injection h with h
      exact h.symm
    | cons e tr =>
      unfold erun at h
      rw [estep_zero_limit_none ids outcome hids e] at h
      exact absurd h (by simp)
  subst hs
  refine ⟨rfl, ?_, rfl, rfl⟩
  rw [einit, countFetching, List.countP_eq_zero]
  intro p hp
  rw [List.eq_of_mem_replicate hp]
  simp

/-- Witness for `fetchProtectionStatuses_zero_limit_stalls`. -/
theorem fetchProtectionStatuses_zero_limit_stalls_witness :
    (["a".toList] : List Str) ≠ [] ∧
    erun ["a".toList] (fun _ => none) 0 (einit 1) [] = some (einit 1) ∧
    (einit 1 = einit (["a".toList] : List Str).length
      ∧ countFetching (einit 1).phases = 0
      ∧ (einit 1).emitted = []
      ∧ (einit 1).closed = false) :=
  ⟨by decide, rfl,
    fetchProtectionStatuses_zero_limit_stalls ["a".toList] (fun _ => none)
      (by decide) [] (einit 1) rfl⟩

end E2C
